import Mathlib

/-!
# Verification of `TwoDAlphabet/utils/make_pseudo.py` (class `PseudoData`)

Shallow embedding of the pseudo-data (toy) generation engine of the
2DAlphabet repository.  ROOT `TH2` histograms are modelled as a pair of
fixed-width axes together with a total content function over bin indices
(bin 0 is the underflow bin, bins `1..n` are in range, bin `n+1` is the
overflow bin, exactly as in ROOT).  Floating-point numbers are modelled by
exact rationals; Python exceptions are modelled by `Except String`.
The random draws consumed by `GeneratePseudoData` (produced in the source
by `random.uniform(0, CDF.GetMaximum())`) are passed in explicitly as a
list of rational numbers.
-/

namespace MakePseudo

/-- A ROOT `TAxis` with fixed-width binning: `nbins` bins of width
`binWidth` starting at `xmin`. -/
structure Axis where
  xmin : ℚ
  binWidth : ℚ
  nbins : ℕ

/-- `TAxis::GetBinCenter(bin)` for fixed-width binning:
`fXmin + (bin-1)*binwidth + 0.5*binwidth`, valid for every bin index
including underflow (0) and overflow (nbins+1). -/
def Axis.binCenter (ax : Axis) (i : ℕ) : ℚ :=
  ax.xmin + ((i : ℚ) - 1) * ax.binWidth + ax.binWidth / 2

/-- `TAxis::FindBin(x)` for fixed-width binning: 0 below `fXmin`,
`nbins+1` at or above `fXmax = fXmin + nbins*binWidth`, otherwise
`1 + floor((x - fXmin)/binWidth)`. -/
def Axis.findBin (ax : Axis) (x : ℚ) : ℕ :=
  if x < ax.xmin then 0
  else if ax.xmin + (ax.nbins : ℚ) * ax.binWidth ≤ x then ax.nbins + 1
  else (⌊(x - ax.xmin) / ax.binWidth⌋).toNat + 1

/-- A ROOT `TH2`: two axes and a content function over bin-index pairs.
Indices `0` and `nbins+1` are the underflow and overflow bins. -/
structure Hist2D where
  xaxis : Axis
  yaxis : Axis
  content : ℕ → ℕ → ℚ

/-- `TH2::GetNbinsX()`. -/
def Hist2D.GetNbinsX (h : Hist2D) : ℕ := h.xaxis.nbins

/-- `TH2::GetNbinsY()`. -/
def Hist2D.GetNbinsY (h : Hist2D) : ℕ := h.yaxis.nbins

/-- `TH2::GetBinContent(i, j)`. -/
def Hist2D.GetBinContent (h : Hist2D) (i j : ℕ) : ℚ := h.content i j

/-- `TH2::SetBinContent(i, j, v)` (functional update of the content map). -/
def Hist2D.SetBinContent (h : Hist2D) (i j : ℕ) (v : ℚ) : Hist2D :=
  { h with content := fun a b => if a = i ∧ b = j then v else h.content a b }

/-- `TH2::Integral(x1, x2, y1, y2)`: sum of bin contents over the inclusive
bin-index rectangle `[x1,x2] × [y1,y2]`. -/
def Integral (h : Hist2D) (x1 x2 y1 y2 : ℕ) : ℚ :=
  ∑ i ∈ Finset.Icc x1 x2, ∑ j ∈ Finset.Icc y1 y2, h.content i j

/-- `TH1::Scale(c)`: multiply every bin content (underflow and overflow
included) by the constant `c`. -/
def Scale (h : Hist2D) (c : ℚ) : Hist2D :=
  { h with content := fun i j => h.content i j * c }

/-! ## `PseudoData.Multiply` (make_pseudo.py lines 285-306) -/

/-- The value written into bin `(i,j)` of the result inside the
`Multiply` double loop: `h1Val` is `h1.GetBinContent(i,j)` zeroed when
negative; the second factor is `h2.GetBinContent` at the bin found by
coordinate lookup (`FindBin` of `h1`'s bin center on each axis of `h2`). -/
def multVal (h1 h2 : Hist2D) (i j : ℕ) : ℚ :=
  (if h1.GetBinContent i j < 0 then 0 else h1.GetBinContent i j) *
    h2.GetBinContent (h2.xaxis.findBin (h1.xaxis.binCenter i))
      (h2.yaxis.findBin (h1.yaxis.binCenter j))

/-- The bin-index pairs visited by the `Multiply` double loop:
`for i in range(0, GetNbinsX()+1): for j in range(0, GetNbinsY()+1)`,
i.e. `0..NX × 0..NY` (underflow included, overflow excluded). -/
def multBinList (nx ny : ℕ) : List (ℕ × ℕ) :=
  (List.range (nx + 1)).flatMap fun i => (List.range (ny + 1)).map fun j => (i, j)

/-- The body of `Multiply` after the binning assertion: clone `h1` into
`finalHist`, then run the double loop writing `multVal` into each visited
bin. -/
def multiplyCore (h1 h2 : Hist2D) : Hist2D :=
  (multBinList h1.GetNbinsX h1.GetNbinsY).foldl
    (fun acc ij => acc.SetBinContent ij.1 ij.2 (multVal h1 h2 ij.1 ij.2)) h1

/-- `PseudoData.Multiply(h1, h2, name)`: asserts that the two histograms
have the same numbers of bins on both axes (`assert(nh1==nh2)`), then runs
the sign-safe multiplication loop. -/
def Multiply (h1 h2 : Hist2D) : Except String Hist2D :=
  if (h1.GetNbinsX, h1.GetNbinsY) = (h2.GetNbinsX, h2.GetNbinsY) then
    .ok (multiplyCore h1 h2)
  else .error "AssertionError"

/-! ## `PseudoData.GetPDF` (lines 216-231) -/

/-- The Python `ZeroDivisionError` raised by `1./nEventsAsimov`. -/
def zeroDivMsg : String := "ZeroDivisionError: float division by zero"

/-- `PseudoData.GetPDF(region, asimov)`: clone the Asimov histogram and
scale it by `1./Integral(1, GetNbinsX()+1, 1, GetNbinsY()+1)` — note the
`+1`: the normalization integral includes the overflow bins.  Python
raises `ZeroDivisionError` if that integral is exactly zero. -/
def GetPDF (asimov : Hist2D) : Except String Hist2D :=
  let nEventsAsimov := Integral asimov 1 (asimov.GetNbinsX + 1) 1 (asimov.GetNbinsY + 1)
  if nEventsAsimov = 0 then .error zeroDivMsg
  else .ok (Scale asimov (1 / nEventsAsimov))

/-! ## `PseudoData.GetCDF` (lines 233-247) -/

/-- The in-range PDF values read by the `GetCDF` double loop, in its
row-major order: `i` outer over `1..NX`, `j` inner over `1..NY`. -/
def rowMajor (pdf : Hist2D) : List ℚ :=
  (List.range pdf.GetNbinsX).flatMap fun i =>
    (List.range pdf.GetNbinsY).map fun j => pdf.GetBinContent (i + 1) (j + 1)

/-- Running prefix sums with accumulator: bin `k` of the CDF histogram is
`PDF value k + CDF bin (k-1)`, with `CDF.GetBinContent(0) = 0` for the
fresh `TH1F`. -/
def scanSum : ℚ → List ℚ → List ℚ
  | _, [] => []
  | acc, x :: xs => (acc + x) :: scanSum (acc + x) xs

/-- The list of CDF bin contents (bins `1..NX*NY`) built by `GetCDF`. -/
def cdfList (pdf : Hist2D) : List ℚ := scanSum 0 (rowMajor pdf)

/-- `TH1::GetMaximum()`: the maximum in-range bin content.  (ROOT returns
`-FLT_MAX` for a histogram with no bins; that case never reaches the
comparisons used here, and `0` behaves identically in them.) -/
def GetMaximum : List ℚ → ℚ
  | [] => 0
  | x :: xs => xs.foldl max x

/-- The `ValueError` message raised by `GetCDF` (braces of the original
format string elided). -/
def cdfOverflowMsg : String := "CDF maximum > 1.0 - something has gone wrong"

/-- `PseudoData.GetCDF(region, PDF)`: build the prefix-sum CDF, then raise
`ValueError` if `CDF.GetMaximum() > 1.0` (a strict comparison with no
tolerance). -/
def GetCDF (pdf : Hist2D) : Except String (List ℚ) :=
  let cdf := cdfList pdf
  if 1 < GetMaximum cdf then .error cdfOverflowMsg else .ok cdf

/-! ## `PseudoData._FindPDFintersection` (lines 249-258) -/

/-- The `ValueError` message raised when no CDF intersection exists. -/
def noIntersectionMsg : String :=
  "Intersection with CDF not found, something is wrong. Make sure that the random number is bounded by the maximum value found in the CDF"

/-- The linear scan of `_FindPDFintersection`: walk the CDF bins carrying
the 1-based bin counter `i`, returning the first bin whose content
strictly exceeds `rand`. -/
def findLoop (rand : ℚ) : List ℚ → ℕ → Option ℕ
  | [], _ => none
  | x :: xs, i => if rand < x then some i else findLoop rand xs (i + 1)

/-- `PseudoData._FindPDFintersection(rand, CDF)`: return the first global
bin `i` in `1..GetNbinsX()` with `CDF.GetBinContent(i) > rand`, raising
`ValueError` when no such bin exists. -/
def FindPDFintersection (rand : ℚ) (cdf : List ℚ) : Except String ℕ :=
  match findLoop rand cdf 1 with
  | some i => .ok i
  | none => .error noIntersectionMsg

/-! ## `PseudoData._GlobalBinTo2D` (lines 260-270) -/

/-- `PseudoData._GlobalBinTo2D(PDF, globalBin)`: global bins start from 1;
`globalBin` is decremented, then `localX = globalBin / NY + 1` (integer
division on the non-negative operands involved — the caller truncates the
Python quotient with `int()`) and `localY = globalBin % NY + 1`. -/
def GlobalBinTo2D (ny globalBin : ℕ) : ℕ × ℕ :=
  ((globalBin - 1) / ny + 1, (globalBin - 1) % ny + 1)

/-! ## `PseudoData.GeneratePseudoData` (lines 272-283) -/

/-- One iteration of the `GeneratePseudoData` event loop for the random
draw `rand`: find the CDF intersection, convert the global bin to a 2D
bin of the PDF, and increment that bin of the toy histogram by one. -/
def generateStep (pdf : Hist2D) (cdf : List ℚ) (toy : Hist2D) (rand : ℚ) :
    Except String Hist2D :=
  match FindPDFintersection rand cdf with
  | .error e => .error e
  | .ok globalBin =>
    let xy := GlobalBinTo2D pdf.GetNbinsY globalBin
    .ok (toy.SetBinContent xy.1 xy.2 (toy.GetBinContent xy.1 xy.2 + 1))

/-- `PseudoData.GeneratePseudoData(region, PDF, CDF, nEvents, name)`: the
toy starts as a clone of the all-zero `template_hist`; for each of the
`int(nEvents)` random draws (here supplied explicitly as the list
`draws`, each produced by `random.uniform(0, CDF.GetMaximum())` in the
source) one bin count is incremented. -/
def GeneratePseudoData (pdf : Hist2D) (cdf : List ℚ) (draws : List ℚ)
    (template : Hist2D) : Except String Hist2D :=
  draws.foldlM (generateStep pdf cdf) template

/-! ## `PseudoData.__init__` (lines 12-61): ledger selection and checks -/

/-- One row of the external ledger dataframe. -/
structure Row where
  region : String
  process : String
  process_type : String
  variation : String
  source_filename : String
  source_histname : String

/-- The row predicate `_select_nominal` (lines 75-82): keep a row when its
region is requested and it is either DATA or a nominal-variation BKG. -/
def selectNominal (regions : List String) (row : Row) : Bool :=
  if row.region ∉ regions then false
  else if row.process_type = "DATA" then true
  else if row.process_type = "BKG" then decide (row.variation = "nominal")
  else false

/-- `PseudoData.select(regions)`: filter the ledger dataframe by
`_select_nominal`. -/
def selectRows (ledger : List Row) (regions : List String) : List Row :=
  ledger.filter (selectNominal regions)

/-- `df.replace(find, replace, regex=True)`: substring replacement applied
to every string column of the dataframe. -/
def replaceRow (f r : String) (row : Row) : Row :=
  { region := row.region.replace f r
    process := row.process.replace f r
    process_type := row.process_type.replace f r
    variation := row.variation.replace f r
    source_filename := row.source_filename.replace f r
    source_histname := row.source_histname.replace f r }

/-- The find-replace loop of `__init__` (lines 38-40), applied pair by
pair in order. -/
def applyReplace (df : List Row) (fr : List (String × String)) : List Row :=
  fr.foldl (fun d p => d.map (replaceRow p.1 p.2)) df

/-- The Python `AttributeError` raised at line 43: in the
no-findreplace branch `self.df` is read (`for i in range(len(self.df))`)
before any assignment to it, so the attribute does not exist. -/
def attributeErrorMsg : String :=
  "AttributeError: PseudoData instance has no attribute df"

/-- The `RuntimeError` message of the chain-length check (line 50). -/
def chainLengthMsg : String :=
  "There must be exactly 1 fewer transfer functions than regions between which to transfer."

/-- The validation prefix of `PseudoData.__init__` (lines 33-50), up to
and including the chain-length check — everything before the first
histogram is opened.  With a non-empty `findreplace` dict the dataframe
is selected on the old regions and find-replaced; with an empty one the
code falls into the `else` branch whose first statement reads the
still-unassigned attribute `self.df` and therefore raises
`AttributeError`.  Afterwards `len(regions) - len(rpfs) != 1` raises the
chain-length `RuntimeError`. -/
def initValidate (ledger : List Row) (regions : List String)
    (rpfs : List Hist2D) (findreplace : List (String × String)) :
    Except String (List Row) :=
  match findreplace with
  | [] => .error attributeErrorMsg
  | _ :: _ =>
    let df := applyReplace (selectRows ledger (findreplace.map Prod.fst)) findreplace
    if (regions.length : ℤ) - (rpfs.length : ℤ) ≠ 1 then .error chainLengthMsg
    else .ok df

/-! ## Helper lemmas -/

/-- Writing one bin and reading any bin. -/
theorem SetBinContent_content (h : Hist2D) (i j a b : ℕ) (v : ℚ) :
    (h.SetBinContent i j v).content a b = if a = i ∧ b = j then v else h.content a b := rfl

theorem SetBinContent_xaxis (h : Hist2D) (i j : ℕ) (v : ℚ) :
    (h.SetBinContent i j v).xaxis = h.xaxis := rfl

theorem SetBinContent_yaxis (h : Hist2D) (i j : ℕ) (v : ℚ) :
    (h.SetBinContent i j v).yaxis = h.yaxis := rfl

theorem mem_multBinList (nx ny : ℕ) (i j : ℕ) :
    (i, j) ∈ multBinList nx ny ↔ i ≤ nx ∧ j ≤ ny := by
  simp only [multBinList, List.mem_flatMap, List.mem_map, List.mem_range, Prod.mk.injEq]
  constructor
  · rintro ⟨a, ha, b, hb, rfl, rfl⟩
    omega
  · rintro ⟨hi, hj⟩
    exact ⟨i, by omega, j, by omega, rfl, rfl⟩

/-- Each visited bin of the `Multiply` loop is written with a value that
does not depend on the accumulator, so the result at any bin is the
written value when the bin is visited and the initial content
otherwise. -/
theorem foldl_setBin_content (v : ℕ → ℕ → ℚ) (l : List (ℕ × ℕ)) (init : Hist2D)
    (i j : ℕ) :
    (l.foldl (fun acc ij => acc.SetBinContent ij.1 ij.2 (v ij.1 ij.2)) init).content i j
      = if (i, j) ∈ l then v i j else init.content i j := by
  induction l generalizing init with
  | nil => simp
  | cons hd tl ih =>
    rw [List.foldl_cons, ih]
    by_cases hmem : (i, j) ∈ tl
    · simp [hmem]
    · simp only [hmem, if_false, List.mem_cons, hmem, or_false]
      rw [SetBinContent_content]
      by_cases heq : (i, j) = hd
      · have h1 : i = hd.1 ∧ j = hd.2 := by
          constructor <;> (rw [← heq])
        simp [heq, h1]
      · have h1 : ¬(i = hd.1 ∧ j = hd.2) := by
          intro ⟨a, b⟩
          exact heq (by rw [a, b])
        simp [heq, h1]

theorem foldl_setBin_xaxis (v : ℕ → ℕ → ℚ) (l : List (ℕ × ℕ)) (init : Hist2D) :
    (l.foldl (fun acc ij => acc.SetBinContent ij.1 ij.2 (v ij.1 ij.2)) init).xaxis
      = init.xaxis := by
  induction l generalizing init with
  | nil => rfl
  | cons hd tl ih => rw [List.foldl_cons, ih]; rfl

theorem foldl_setBin_yaxis (v : ℕ → ℕ → ℚ) (l : List (ℕ × ℕ)) (init : Hist2D) :
    (l.foldl (fun acc ij => acc.SetBinContent ij.1 ij.2 (v ij.1 ij.2)) init).yaxis
      = init.yaxis := by
  induction l generalizing init with
  | nil => rfl
  | cons hd tl ih => rw [List.foldl_cons, ih]; rfl

/-- Pointwise description of `multiplyCore`: visited bins hold the
clamped product, all other bins keep `h1`'s cloned content. -/
theorem multiplyCore_content (h1 h2 : Hist2D) (i j : ℕ) :
    (multiplyCore h1 h2).content i j
      = if i ≤ h1.GetNbinsX ∧ j ≤ h1.GetNbinsY then multVal h1 h2 i j
        else h1.content i j := by
  rw [multiplyCore, foldl_setBin_content]
  simp only [mem_multBinList]

/-- The negative-yield clamp of `Multiply` written with `max`. -/
theorem clamp_eq_max (x : ℚ) : (if x < 0 then 0 else x) = max x 0 := by
  rcases lt_or_le x 0 with h | h
  · rw [if_pos h, max_eq_right h.le]
  · rw [if_neg (not_lt.mpr h), max_eq_left h]

/-! ## C2: Multiply clamp and coordinate lookup -/

/-- C2: for compatible grids (identical bin counts on both axes, enforced
by the source's `assert`), `Multiply(a, b)` writes at every processed bin
`(i,j)` with `i ≤ NX`, `j ≤ NY` the value `max(a(i,j), 0)` times `b`'s
content at the bin found by coordinate lookup of `a`'s bin center on
`b`'s axes (never the raw index); the clamp applies only to `a`, with
`b`'s looked-up content entering unchanged.  In particular a negative
in-range bin of `a` yields content exactly `0` there whenever `b`'s
looked-up content is non-negative, and when every in-range bin of `a` is
negative every in-range bin of the result is `0` (the zero grid, on the
spec's in-range `Grid2D` view; the ROOT overflow bins are cloned
unprocessed, see C10). -/
theorem multiply_clamp_and_lookup (h1 h2 : Hist2D)
    (hx : h1.GetNbinsX = h2.GetNbinsX) (hy : h1.GetNbinsY = h2.GetNbinsY) :
    ∃ c, Multiply h1 h2 = .ok c ∧
      (∀ i j, i ≤ h1.GetNbinsX → j ≤ h1.GetNbinsY →
        c.content i j = max (h1.content i j) 0 *
          h2.content (h2.xaxis.findBin (h1.xaxis.binCenter i))
            (h2.yaxis.findBin (h1.yaxis.binCenter j))) ∧
      (∀ i j, 1 ≤ i → i ≤ h1.GetNbinsX → 1 ≤ j → j ≤ h1.GetNbinsY →
        h1.content i j < 0 →
        0 ≤ h2.content (h2.xaxis.findBin (h1.xaxis.binCenter i))
            (h2.yaxis.findBin (h1.yaxis.binCenter j)) →
        c.content i j = 0) ∧
      ((∀ i j, 1 ≤ i → i ≤ h1.GetNbinsX → 1 ≤ j → j ≤ h1.GetNbinsY →
          h1.content i j < 0) →
        ∀ i j, 1 ≤ i → i ≤ h1.GetNbinsX → 1 ≤ j → j ≤ h1.GetNbinsY →
          c.content i j = 0) := by
  refine ⟨multiplyCore h1 h2, ?_, ?_, ?_, ?_⟩
  · rw [Multiply, if_pos (by rw [hx, hy])]
  · intro i j hi hj
    rw [multiplyCore_content, if_pos ⟨hi, hj⟩, multVal, Hist2D.GetBinContent,
      Hist2D.GetBinContent, clamp_eq_max]
  · intro i j hi1 hi2 hj1 hj2 hneg _
    rw [multiplyCore_content, if_pos ⟨hi2, hj2⟩, multVal, Hist2D.GetBinContent,
      Hist2D.GetBinContent, if_pos hneg, zero_mul]
  · intro hall i j hi1 hi2 hj1 hj2
    rw [multiplyCore_content, if_pos ⟨hi2, hj2⟩, multVal, Hist2D.GetBinContent,
      Hist2D.GetBinContent, if_pos (hall i j hi1 hi2 hj1 hj2), zero_mul]

/-- A 1×1 grid whose only in-range bin content is negative. -/
def h1negEx : Hist2D :=
  ⟨⟨0, 1, 1⟩, ⟨0, 1, 1⟩, fun i j => if i = 1 ∧ j = 1 then -3 else 0⟩

/-- A 1×1 grid with content 2 everywhere. -/
def h2twoEx : Hist2D := ⟨⟨0, 1, 1⟩, ⟨0, 1, 1⟩, fun _ _ => 2⟩

/-- C2 witness: the clamp/lookup theorem applied to the concrete
all-negative 1×1 grid `h1negEx` against the constant grid `h2twoEx`. -/
theorem multiply_clamp_and_lookup_witness :
    ∃ c, Multiply h1negEx h2twoEx = .ok c ∧
      (∀ i j, i ≤ h1negEx.GetNbinsX → j ≤ h1negEx.GetNbinsY →
        c.content i j = max (h1negEx.content i j) 0 *
          h2twoEx.content (h2twoEx.xaxis.findBin (h1negEx.xaxis.binCenter i))
            (h2twoEx.yaxis.findBin (h1negEx.yaxis.binCenter j))) ∧
      (∀ i j, 1 ≤ i → i ≤ h1negEx.GetNbinsX → 1 ≤ j → j ≤ h1negEx.GetNbinsY →
        h1negEx.content i j < 0 →
        0 ≤ h2twoEx.content (h2twoEx.xaxis.findBin (h1negEx.xaxis.binCenter i))
            (h2twoEx.yaxis.findBin (h1negEx.yaxis.binCenter j)) →
        c.content i j = 0) ∧
      ((∀ i j, 1 ≤ i → i ≤ h1negEx.GetNbinsX → 1 ≤ j → j ≤ h1negEx.GetNbinsY →
          h1negEx.content i j < 0) →
        ∀ i j, 1 ≤ i → i ≤ h1negEx.GetNbinsX → 1 ≤ j → j ≤ h1negEx.GetNbinsY →
          c.content i j = 0) :=
  multiply_clamp_and_lookup h1negEx h2twoEx rfl rfl

/-! ## C10: Multiply frame effect on overflow bins -/

/-- C10: `Multiply` writes the result only at bins `(i,j)` with
`0 ≤ i ≤ NX` and `0 ≤ j ≤ NY`: the underflow row and column (index 0)
are clamped and multiplied exactly like in-range bins, while every
overflow bin (`i = NX+1` or `j = NY+1`) of the result keeps the first
operand's original cloned content, neither clamped nor multiplied. -/
theorem multiply_overflow_frame (h1 h2 : Hist2D)
    (hx : h1.GetNbinsX = h2.GetNbinsX) (hy : h1.GetNbinsY = h2.GetNbinsY) :
    ∃ c, Multiply h1 h2 = .ok c ∧
      (∀ i j, i ≤ h1.GetNbinsX → j ≤ h1.GetNbinsY →
        c.content i j = (if h1.content i j < 0 then 0 else h1.content i j) *
          h2.content (h2.xaxis.findBin (h1.xaxis.binCenter i))
            (h2.yaxis.findBin (h1.yaxis.binCenter j))) ∧
      (∀ i j, i = h1.GetNbinsX + 1 ∨ j = h1.GetNbinsY + 1 →
        c.content i j = h1.content i j) := by
  refine ⟨multiplyCore h1 h2, ?_, ?_, ?_⟩
  · rw [Multiply, if_pos (by rw [hx, hy])]
  · intro i j hi hj
    rw [multiplyCore_content, if_pos ⟨hi, hj⟩, multVal, Hist2D.GetBinContent,
      Hist2D.GetBinContent]
  · intro i j hij
    rw [multiplyCore_content, if_neg (by omega)]

/-- A 1×1 grid with nonzero overflow content, to exhibit the cloned
overflow bins of `Multiply`. -/
def h1ovfEx : Hist2D :=
  ⟨⟨0, 1, 1⟩, ⟨0, 1, 1⟩, fun i j => if i = 1 ∧ j = 1 then 4 else -7⟩

/-- C10 witness: the frame theorem applied to the concrete grid
`h1ovfEx` (overflow content -7) against `h2twoEx`. -/
theorem multiply_overflow_frame_witness :
    ∃ c, Multiply h1ovfEx h2twoEx = .ok c ∧
      (∀ i j, i ≤ h1ovfEx.GetNbinsX → j ≤ h1ovfEx.GetNbinsY →
        c.content i j = (if h1ovfEx.content i j < 0 then 0 else h1ovfEx.content i j) *
          h2twoEx.content (h2twoEx.xaxis.findBin (h1ovfEx.xaxis.binCenter i))
            (h2twoEx.yaxis.findBin (h1ovfEx.yaxis.binCenter j))) ∧
      (∀ i j, i = h1ovfEx.GetNbinsX + 1 ∨ j = h1ovfEx.GetNbinsY + 1 →
        c.content i j = h1ovfEx.content i j) :=
  multiply_overflow_frame h1ovfEx h2twoEx rfl rfl

/-- Scaling a histogram scales every rectangular integral. -/
theorem Integral_scale (h : Hist2D) (c : ℚ) (x1 x2 y1 y2 : ℕ) :
    Integral (Scale h c) x1 x2 y1 y2 = Integral h x1 x2 y1 y2 * c := by
  simp only [Integral, Scale, Finset.sum_mul]

/-- When the overflow row and column vanish, the extended normalization
integral of `GetPDF` (bins `1..NX+1 × 1..NY+1`) equals the in-range
integral (bins `1..NX × 1..NY`). -/
theorem Integral_ext_eq_of_ovf_zero (h : Hist2D)
    (hovfX : ∀ j, j ≤ h.GetNbinsY + 1 → h.content (h.GetNbinsX + 1) j = 0)
    (hovfY : ∀ i, i ≤ h.GetNbinsX + 1 → h.content i (h.GetNbinsY + 1) = 0) :
    Integral h 1 (h.GetNbinsX + 1) 1 (h.GetNbinsY + 1)
      = Integral h 1 h.GetNbinsX 1 h.GetNbinsY := by
  rw [Integral, Integral, Finset.sum_Icc_succ_top (by omega)]
  have hrow : ∑ j ∈ Finset.Icc 1 (h.GetNbinsY + 1), h.content (h.GetNbinsX + 1) j = 0 :=
    Finset.sum_eq_zero fun j hj => hovfX j (Finset.mem_Icc.mp hj).2
  rw [hrow, add_zero]
  refine Finset.sum_congr rfl fun i hi => ?_
  rw [Finset.sum_Icc_succ_top (by omega),
    hovfY i (by have := (Finset.mem_Icc.mp hi).2; omega), add_zero]

/-! ## C3: PDF normalization -/

/-- C3 (amended): for a strictly-positive Asimov grid whose overflow row
and column are zero, `GetPDF` succeeds and the in-range integral of the
returned PDF equals 1 exactly (hence within the 1e-9 tolerance); and for
any grid whose normalization integral `Integral(1, NX+1, 1, NY+1)` is
exactly zero, `GetPDF` fails with the Python `ZeroDivisionError`.  The
overflow-zero hypothesis is forced by the source: the normalization
integral includes the overflow bins, so overflow content makes the
in-range PDF integral fall short of 1 (see the counterexample). -/
theorem getPDF_normalization (asimov : Hist2D)
    (hnx : 1 ≤ asimov.GetNbinsX) (hny : 1 ≤ asimov.GetNbinsY)
    (hpos : ∀ i j, 1 ≤ i → i ≤ asimov.GetNbinsX → 1 ≤ j → j ≤ asimov.GetNbinsY →
      0 < asimov.content i j)
    (hovfX : ∀ j, j ≤ asimov.GetNbinsY + 1 → asimov.content (asimov.GetNbinsX + 1) j = 0)
    (hovfY : ∀ i, i ≤ asimov.GetNbinsX + 1 → asimov.content i (asimov.GetNbinsY + 1) = 0) :
    (∃ p, GetPDF asimov = .ok p ∧
      |Integral p 1 asimov.GetNbinsX 1 asimov.GetNbinsY - 1| ≤ 1 / 1000000000) ∧
    (∀ a : Hist2D, Integral a 1 (a.GetNbinsX + 1) 1 (a.GetNbinsY + 1) = 0 →
      GetPDF a = .error zeroDivMsg) := by
  have key := Integral_ext_eq_of_ovf_zero asimov hovfX hovfY
  have hpos_in : 0 < Integral asimov 1 asimov.GetNbinsX 1 asimov.GetNbinsY := by
    rw [Integral]
    refine Finset.sum_pos (fun i hi => ?_) (Finset.nonempty_Icc.mpr hnx)
    refine Finset.sum_pos (fun j hj => ?_) (Finset.nonempty_Icc.mpr hny)
    have hi' := Finset.mem_Icc.mp hi
    have hj' := Finset.mem_Icc.mp hj
    exact hpos i j hi'.1 hi'.2 hj'.1 hj'.2
  have hne : Integral asimov 1 (asimov.GetNbinsX + 1) 1 (asimov.GetNbinsY + 1) ≠ 0 := by
    rw [key]; exact ne_of_gt hpos_in
  constructor
  · refine ⟨Scale asimov
      (1 / Integral asimov 1 (asimov.GetNbinsX + 1) 1 (asimov.GetNbinsY + 1)), ?_, ?_⟩
    · simp only [GetPDF]
      rw [if_neg hne]
    · rw [Integral_scale, key, mul_one_div, div_self (key ▸ hne)]
      norm_num
  · intro a ha
    simp only [GetPDF]
    rw [if_pos ha]

/-- A 1×1 Asimov grid that is strictly positive in range with zero
overflow content. -/
def asimovPosEx : Hist2D :=
  ⟨⟨0, 1, 1⟩, ⟨0, 1, 1⟩, fun i j => if i = 1 ∧ j = 1 then 2 else 0⟩

/-- C3 witness: the amended normalization theorem at the concrete
strictly-positive grid `asimovPosEx`. -/
theorem getPDF_normalization_witness :
    (∃ p, GetPDF asimovPosEx = .ok p ∧
      |Integral p 1 asimovPosEx.GetNbinsX 1 asimovPosEx.GetNbinsY - 1| ≤ 1 / 1000000000) ∧
    (∀ a : Hist2D, Integral a 1 (a.GetNbinsX + 1) 1 (a.GetNbinsY + 1) = 0 →
      GetPDF a = .error zeroDivMsg) :=
  getPDF_normalization asimovPosEx (by decide) (by decide)
    (by
      intro i j h1 h2 h3 h4
      have hbx : asimovPosEx.GetNbinsX = 1 := rfl
      have hby : asimovPosEx.GetNbinsY = 1 := rfl
      rw [hbx] at h2
      rw [hby] at h4
      have hi : i = 1 := by omega
      have hj : j = 1 := by omega
      subst hi; subst hj
      norm_num [asimovPosEx])
    (by
      intro j hj
      show asimovPosEx.content 2 j = 0
      simp [asimovPosEx])
    (by
      intro i hi
      show asimovPosEx.content i 2 = 0
      simp [asimovPosEx])

/-- A 1×1 Asimov grid that is strictly positive in range but has content
1 in the X-overflow bin (2,1). -/
def asimovOvfEx : Hist2D :=
  ⟨⟨0, 1, 1⟩, ⟨0, 1, 1⟩, fun i j =>
    if i = 1 ∧ j = 1 then 1 else if i = 2 ∧ j = 1 then 1 else 0⟩

/-- C3 counterexample: for the strictly-positive 1×1 Asimov grid
`asimovOvfEx` with overflow content, `GetPDF` succeeds but the in-range
integral of the returned PDF is 1/2, farther from 1 than the 1e-9
tolerance — the claim as stated is false because the source normalizes by
`Integral(1, NbinsX+1, 1, NbinsY+1)`, which includes overflow bins. -/
theorem getPDF_overflow_counterexample :
    0 < asimovOvfEx.content 1 1 ∧
    ∃ p, GetPDF asimovOvfEx = .ok p ∧
      1 / 1000000000 < |Integral p 1 asimovOvfEx.GetNbinsX 1 asimovOvfEx.GetNbinsY - 1| := by
  have hInt : Integral asimovOvfEx 1 2 1 2 = 2 := by
    rw [Integral, show Finset.Icc 1 2 = ({1, 2} : Finset ℕ) from rfl]
    norm_num [Finset.sum_insert, Finset.sum_singleton, asimovOvfEx]
  have hne : Integral asimovOvfEx 1 (asimovOvfEx.GetNbinsX + 1) 1
      (asimovOvfEx.GetNbinsY + 1) ≠ 0 := by
    show Integral asimovOvfEx 1 2 1 2 ≠ 0
    rw [hInt]; norm_num
  refine ⟨by norm_num [asimovOvfEx], Scale asimovOvfEx
    (1 / Integral asimovOvfEx 1 (asimovOvfEx.GetNbinsX + 1) 1 (asimovOvfEx.GetNbinsY + 1)),
    ?_, ?_⟩
  · simp only [GetPDF]
    rw [if_neg hne]
  · have h1 : Integral (Scale asimovOvfEx (1 / Integral asimovOvfEx 1 (asimovOvfEx.GetNbinsX + 1)
        1 (asimovOvfEx.GetNbinsY + 1))) 1 asimovOvfEx.GetNbinsX 1 asimovOvfEx.GetNbinsY
        = 1 / 2 := by
      rw [Integral_scale]
      have h2 : Integral asimovOvfEx 1 asimovOvfEx.GetNbinsX 1 asimovOvfEx.GetNbinsY = 1 := by
        show Integral asimovOvfEx 1 1 1 1 = 1
        rw [Integral, Finset.Icc_self, Finset.sum_singleton, Finset.sum_singleton]
        norm_num [asimovOvfEx]
      rw [h2]
      show ((1 : ℚ)) * (1 / Integral asimovOvfEx 1 2 1 2) = 1 / 2
      rw [hInt]
      norm_num
    rw [h1]
    have habs : |(1 : ℚ) / 2 - 1| = 1 / 2 := by
      rw [show (1 : ℚ) / 2 - 1 = -(1 / 2) by norm_num, abs_neg,
        abs_of_nonneg (by norm_num : (0 : ℚ) ≤ 1 / 2)]
    rw [habs]
    norm_num

/-! ## Prefix-sum and row-major indexing lemmas -/

theorem scanSum_length (l : List ℚ) : ∀ acc : ℚ, (scanSum acc l).length = l.length := by
  induction l with
  | nil => intro acc; rfl
  | cons x xs ih => intro acc; simp [scanSum, ih]

theorem scanSum_getD (l : List ℚ) : ∀ (acc : ℚ) (k : ℕ), k < l.length →
    (scanSum acc l).getD k 0 = acc + (l.take (k + 1)).sum := by
  induction l with
  | nil => intro acc k hk; simp at hk
  | cons x xs ih =>
    intro acc k hk
    match k with
    | 0 => simp [scanSum]
    | k + 1 =>
      have hk' : k < xs.length := by simpa using hk
      simp only [scanSum, List.getD_cons_succ, List.take_succ_cons, List.sum_cons]
      rw [ih (acc + x) k hk']
      ring

theorem map_range_getD (m j : ℕ) (f : ℕ → ℚ) (hj : j < m) :
    ((List.range m).map f).getD j 0 = f j := by
  rw [List.getD_eq_getElem?_getD, List.getElem?_map, List.getElem?_range hj]
  rfl

/-- Indexing into the row-major flattening: the entry at flattened offset
`i*m + j` of the concatenation of `n` blocks of length `m` is `g i j`. -/
theorem flatMap_blocks_getD :
    ∀ (i : ℕ) (g : ℕ → ℕ → ℚ) (n m j : ℕ), i < n → j < m →
      (((List.range n).flatMap fun a => (List.range m).map fun b => g a b).getD
        (i * m + j) 0) = g i j := by
  intro i
  induction i with
  | zero =>
    intro g n m j hn hj
    match n, hn with
    | n' + 1, _ =>
      rw [List.range_succ_eq_map, List.flatMap_cons]
      rw [List.getD_append _ _ _ _ (by simpa using hj)]
      simpa using map_range_getD m j (fun b => g 0 b) hj
  | succ i ih =>
    intro g n m j hn hj
    match n, hn with
    | n' + 1, _ =>
      rw [List.range_succ_eq_map, List.flatMap_cons]
      have hlen : ((List.range m).map fun b => g 0 b).length = m := by simp
      rw [List.getD_append_right _ _ _ _ (by rw [hlen]; nlinarith)]
      rw [List.flatMap_map]
      have harith : (i + 1) * m + j - ((List.range m).map fun b => g 0 b).length
          = i * m + j := by rw [hlen]; ring_nf; omega
      rw [harith]
      exact ih (fun a b => g (a + 1) b) n' m j (by omega) hj

theorem rowMajor_length (pdf : Hist2D) :
    (rowMajor pdf).length = pdf.GetNbinsX * pdf.GetNbinsY := by
  rw [rowMajor, List.length_flatMap]
  simp [Function.comp_def, List.map_const']

theorem rowMajor_getD (pdf : Hist2D) (i j : ℕ)
    (hi1 : 1 ≤ i) (hi2 : i ≤ pdf.GetNbinsX) (hj1 : 1 ≤ j) (hj2 : j ≤ pdf.GetNbinsY) :
    (rowMajor pdf).getD ((i - 1) * pdf.GetNbinsY + (j - 1)) 0 = pdf.content i j := by
  rw [rowMajor]
  have h := flatMap_blocks_getD (i - 1) (fun a b => pdf.GetBinContent (a + 1) (b + 1))
    pdf.GetNbinsX pdf.GetNbinsY (j - 1) (by omega) (by omega)
  simp only at h
  rw [h]
  have h1 : i - 1 + 1 = i := by omega
  have h2 : j - 1 + 1 = j := by omega
  rw [h1, h2, Hist2D.GetBinContent]

theorem rowMajor_nonneg (pdf : Hist2D)
    (hnn : ∀ i j, 1 ≤ i → i ≤ pdf.GetNbinsX → 1 ≤ j → j ≤ pdf.GetNbinsY →
      0 ≤ pdf.content i j) :
    ∀ x ∈ rowMajor pdf, 0 ≤ x := by
  intro x hx
  simp only [rowMajor, List.mem_flatMap, List.mem_map, List.mem_range] at hx
  obtain ⟨a, ha, b, hb, rfl⟩ := hx
  exact hnn (a + 1) (b + 1) (by omega) (by omega) (by omega) (by omega)

theorem sum_take_mono (l : List ℚ) (hnn : ∀ x ∈ l, 0 ≤ x) {m n : ℕ} (hmn : m ≤ n) :
    (l.take m).sum ≤ (l.take n).sum := by
  have h : n = m + (n - m) := by omega
  rw [h, List.take_add, List.sum_append]
  have hpos : 0 ≤ ((l.drop m).take (n - m)).sum := by
    refine List.sum_nonneg fun x hx => ?_
    exact hnn x (List.drop_subset m l (List.take_subset _ _ hx))
  linarith

theorem cdfList_length (pdf : Hist2D) :
    (cdfList pdf).length = pdf.GetNbinsX * pdf.GetNbinsY := by
  rw [cdfList, scanSum_length, rowMajor_length]

/-- `GetMaximum` of a nonempty list is attained. -/
theorem foldl_max_mem (xs : List ℚ) : ∀ a : ℚ, xs.foldl max a ∈ a :: xs := by
  induction xs with
  | nil => intro a; simp
  | cons x xs ih =>
    intro a
    have h := ih (max a x)
    rw [List.foldl_cons]
    rcases List.mem_cons.mp h with hm | hm
    · rcases max_choice a x with hc | hc
      · exact List.mem_cons.mpr (Or.inl (hm.trans hc))
      · exact List.mem_cons.mpr (Or.inr (List.mem_cons.mpr (Or.inl (hm.trans hc))))
    · exact List.mem_cons.mpr (Or.inr (List.mem_cons.mpr (Or.inr hm)))

theorem foldl_max_init_le (xs : List ℚ) : ∀ a : ℚ, a ≤ xs.foldl max a := by
  induction xs with
  | nil => intro a; exact le_refl a
  | cons x xs ih =>
    intro a
    calc a ≤ max a x := le_max_left a x
      _ ≤ xs.foldl max (max a x) := ih (max a x)
      _ = (x :: xs).foldl max a := rfl

theorem le_foldl_max (xs : List ℚ) : ∀ (a x : ℚ), x ∈ xs → x ≤ xs.foldl max a := by
  induction xs with
  | nil => intro a x hx; simp at hx
  | cons y ys ih =>
    intro a x hx
    rcases List.mem_cons.mp hx with rfl | h
    · calc x ≤ max a x := le_max_right a x
        _ ≤ ys.foldl max (max a x) := foldl_max_init_le ys (max a x)
        _ = (x :: ys).foldl max a := rfl
    · exact ih (max a y) x h

theorem GetMaximum_mem (l : List ℚ) (hne : l ≠ []) : GetMaximum l ∈ l := by
  match l with
  | x :: xs => exact foldl_max_mem xs x

theorem le_GetMaximum (l : List ℚ) (x : ℚ) (hx : x ∈ l) : x ≤ GetMaximum l := by
  match l with
  | y :: ys =>
    rcases List.mem_cons.mp hx with rfl | h
    · exact foldl_max_init_le ys x
    · exact le_foldl_max ys y x h

/-! ## C4: CDF prefix sum, monotonicity and final value -/

/-- C4 (amended): for every PDF with non-negative in-range bin contents,
the CDF built by `GetCDF` has `NX*NY` bins, its entry at flattened offset
`(i-1)*NY + (j-1)` reads PDF bin `(i,j)` (row-major order, `i` outer,
`j` inner), each cumulative value is the prefix sum of the first `k+1`
PDF values, the sequence is non-decreasing, and its final value equals
the total in-range PDF sum — hence it lies in `[1-ε, 1+ε]` exactly when
that sum does (the claim's unconditional `[1-ε, 1+ε]` bound fails, e.g.
for the all-zero PDF, see the counterexample); a successful `GetCDF`
returns exactly this list. -/
theorem getCDF_prefix_sum_monotone (pdf : Hist2D)
    (hnn : ∀ i j, 1 ≤ i → i ≤ pdf.GetNbinsX → 1 ≤ j → j ≤ pdf.GetNbinsY →
      0 ≤ pdf.content i j) :
    (cdfList pdf).length = pdf.GetNbinsX * pdf.GetNbinsY ∧
    (∀ i j, 1 ≤ i → i ≤ pdf.GetNbinsX → 1 ≤ j → j ≤ pdf.GetNbinsY →
      (rowMajor pdf).getD ((i - 1) * pdf.GetNbinsY + (j - 1)) 0 = pdf.content i j) ∧
    (∀ k, k < (cdfList pdf).length →
      (cdfList pdf).getD k 0 = ((rowMajor pdf).take (k + 1)).sum) ∧
    (∀ k1 k2, k1 ≤ k2 → k2 < (cdfList pdf).length →
      (cdfList pdf).getD k1 0 ≤ (cdfList pdf).getD k2 0) ∧
    (cdfList pdf).getD ((cdfList pdf).length - 1) 0 = (rowMajor pdf).sum ∧
    ((1 - 1 / 1000000 ≤ (rowMajor pdf).sum ∧ (rowMajor pdf).sum ≤ 1 + 1 / 1000000) →
      1 - 1 / 1000000 ≤ (cdfList pdf).getD ((cdfList pdf).length - 1) 0 ∧
      (cdfList pdf).getD ((cdfList pdf).length - 1) 0 ≤ 1 + 1 / 1000000) ∧
    (∀ l, GetCDF pdf = .ok l → l = cdfList pdf) := by
  have hlen : (cdfList pdf).length = (rowMajor pdf).length := by
    rw [cdfList, scanSum_length]
  have hgetD : ∀ k, k < (cdfList pdf).length →
      (cdfList pdf).getD k 0 = ((rowMajor pdf).take (k + 1)).sum := by
    intro k hk
    rw [cdfList, scanSum_getD (rowMajor pdf) 0 k (by rw [← hlen]; exact hk), zero_add]
  have hnn' := rowMajor_nonneg pdf hnn
  have hfinal : (cdfList pdf).getD ((cdfList pdf).length - 1) 0 = (rowMajor pdf).sum := by
    match hh : rowMajor pdf with
    | [] =>
      have : cdfList pdf = [] := by rw [cdfList, hh]; rfl
      rw [this]
      simp
    | x :: xs =>
      have hpos : 0 < (cdfList pdf).length := by rw [hlen, hh]; simp
      rw [hgetD ((cdfList pdf).length - 1) (by omega), hlen]
      have : (rowMajor pdf).length - 1 + 1 = (rowMajor pdf).length := by rw [hh]; simp
      rw [this, List.take_length, hh]
  refine ⟨cdfList_length pdf,
    fun i j h1 h2 h3 h4 => rowMajor_getD pdf i j h1 h2 h3 h4,
    hgetD, ?_, hfinal, fun hb => by rw [hfinal]; exact hb, ?_⟩
  · intro k1 k2 h12 hk2
    rw [hgetD k1 (by omega), hgetD k2 hk2]
    exact sum_take_mono (rowMajor pdf) hnn' (by omega)
  · intro l hl
    simp only [GetCDF] at hl
    split at hl
    · cases hl
    · exact (Except.ok.inj hl).symm

/-- A 1×1 PDF whose single in-range bin is 1 (total sum 1). -/
def pdfOneEx : Hist2D := ⟨⟨0, 1, 1⟩, ⟨0, 1, 1⟩, fun i j => if i = 1 ∧ j = 1 then 1 else 0⟩

/-- C4 witness: the prefix-sum/monotonicity theorem at the concrete
normalized 1×1 PDF `pdfOneEx`. -/
theorem getCDF_prefix_sum_monotone_witness :
    (cdfList pdfOneEx).length = pdfOneEx.GetNbinsX * pdfOneEx.GetNbinsY ∧
    (∀ i j, 1 ≤ i → i ≤ pdfOneEx.GetNbinsX → 1 ≤ j → j ≤ pdfOneEx.GetNbinsY →
      (rowMajor pdfOneEx).getD ((i - 1) * pdfOneEx.GetNbinsY + (j - 1)) 0
        = pdfOneEx.content i j) ∧
    (∀ k, k < (cdfList pdfOneEx).length →
      (cdfList pdfOneEx).getD k 0 = ((rowMajor pdfOneEx).take (k + 1)).sum) ∧
    (∀ k1 k2, k1 ≤ k2 → k2 < (cdfList pdfOneEx).length →
      (cdfList pdfOneEx).getD k1 0 ≤ (cdfList pdfOneEx).getD k2 0) ∧
    (cdfList pdfOneEx).getD ((cdfList pdfOneEx).length - 1) 0 = (rowMajor pdfOneEx).sum ∧
    ((1 - 1 / 1000000 ≤ (rowMajor pdfOneEx).sum ∧
        (rowMajor pdfOneEx).sum ≤ 1 + 1 / 1000000) →
      1 - 1 / 1000000 ≤ (cdfList pdfOneEx).getD ((cdfList pdfOneEx).length - 1) 0 ∧
      (cdfList pdfOneEx).getD ((cdfList pdfOneEx).length - 1) 0 ≤ 1 + 1 / 1000000) ∧
    (∀ l, GetCDF pdfOneEx = .ok l → l = cdfList pdfOneEx) :=
  getCDF_prefix_sum_monotone pdfOneEx
    (by
      intro i j h1 h2 h3 h4
      have hbx : pdfOneEx.GetNbinsX = 1 := rfl
      have hby : pdfOneEx.GetNbinsY = 1 := rfl
      rw [hbx] at h2
      rw [hby] at h4
      have hi : i = 1 := by omega
      have hj : j = 1 := by omega
      subst hi; subst hj
      norm_num [pdfOneEx])

/-- The all-zero 1×1 PDF. -/
def pdfZeroEx : Hist2D := ⟨⟨0, 1, 1⟩, ⟨0, 1, 1⟩, fun _ _ => 0⟩

/-- C4 counterexample: the all-zero PDF has non-negative bin contents and
`GetCDF` succeeds on it, but the final cumulative value is 0, strictly
below `1 - ε`: the claimed unconditional final-value bound
`[1-ε, 1+ε]` is false. -/
theorem getCDF_zero_pdf_counterexample :
    (∀ i j, 0 ≤ pdfZeroEx.content i j) ∧
    GetCDF pdfZeroEx = .ok (cdfList pdfZeroEx) ∧
    (cdfList pdfZeroEx).getD ((cdfList pdfZeroEx).length - 1) 0 < 1 - 1 / 1000000 := by
  have hcdf : cdfList pdfZeroEx = [0] := by
    show scanSum 0 (rowMajor pdfZeroEx) = [0]
    have hrm : rowMajor pdfZeroEx = [0] := rfl
    rw [hrm]
    show [(0 : ℚ) + 0] = [0]
    norm_num
  refine ⟨fun i j => le_refl 0, ?_, ?_⟩
  · rw [GetCDF]
    rw [if_neg (by rw [hcdf]; norm_num [GetMaximum])]
  · rw [hcdf]
    norm_num

theorem cdfList_getD (pdf : Hist2D) (k : ℕ) (hk : k < (cdfList pdf).length) :
    (cdfList pdf).getD k 0 = ((rowMajor pdf).take (k + 1)).sum := by
  have hlen : (cdfList pdf).length = (rowMajor pdf).length := by
    rw [cdfList, scanSum_length]
  rw [cdfList, scanSum_getD (rowMajor pdf) 0 k (by rw [← hlen]; exact hk), zero_add]

theorem cdfList_final_eq_sum (pdf : Hist2D) :
    (cdfList pdf).getD ((cdfList pdf).length - 1) 0 = (rowMajor pdf).sum := by
  have hlen : (cdfList pdf).length = (rowMajor pdf).length := by
    rw [cdfList, scanSum_length]
  match hh : rowMajor pdf with
  | [] =>
    have : cdfList pdf = [] := by rw [cdfList, hh]; rfl
    rw [this]
    simp
  | x :: xs =>
    have hpos : 0 < (cdfList pdf).length := by rw [hlen, hh]; simp
    rw [cdfList_getD pdf ((cdfList pdf).length - 1) (by omega), hlen]
    have h1 : (rowMajor pdf).length - 1 + 1 = (rowMajor pdf).length := by rw [hh]; simp
    rw [h1, List.take_length, hh]

theorem cdfList_mem_le_sum (pdf : Hist2D)
    (hnn' : ∀ x ∈ rowMajor pdf, 0 ≤ x) :
    ∀ x ∈ cdfList pdf, x ≤ (rowMajor pdf).sum := by
  intro x hx
  obtain ⟨k, hk, hget⟩ := List.mem_iff_getElem.mp hx
  have hx' : (cdfList pdf).getD k 0 = x := by
    rw [List.getD_eq_getElem (cdfList pdf) 0 hk, hget]
  rw [← hx', cdfList_getD pdf k hk]
  calc ((rowMajor pdf).take (k + 1)).sum
      ≤ ((rowMajor pdf).take (rowMajor pdf).length).sum := by
        refine sum_take_mono (rowMajor pdf) hnn' ?_
        have hlen : (cdfList pdf).length = (rowMajor pdf).length := by
          rw [cdfList, scanSum_length]
        omega
    _ = (rowMajor pdf).sum := by rw [List.take_length]

/-! ## C6: the CdfOverflow check has zero tolerance -/

/-- C6 (amended): `GetCDF` raises the consistency error exactly when the
maximum cumulative value strictly exceeds 1.0 — a bare `> 1.0`
comparison with no floating tolerance, unlike the claimed `1 + ε` with
`ε = 1e-6` (see the counterexample, where a final value of `1 + 1e-7`
raises); and for a PDF with non-negative in-range contents, a final
cumulative value at most 1 guarantees that `GetCDF` returns the CDF
without raising. -/
theorem getCDF_raise_condition (pdf : Hist2D)
    (hnn : ∀ i j, 1 ≤ i → i ≤ pdf.GetNbinsX → 1 ≤ j → j ≤ pdf.GetNbinsY →
      0 ≤ pdf.content i j) :
    (GetCDF pdf = .error cdfOverflowMsg ↔ 1 < GetMaximum (cdfList pdf)) ∧
    ((cdfList pdf).getD ((cdfList pdf).length - 1) 0 ≤ 1 →
      GetCDF pdf = .ok (cdfList pdf)) := by
  constructor
  · simp only [GetCDF]
    split
    · next h => exact ⟨fun _ => h, fun _ => rfl⟩
    · next h =>
      refine ⟨fun he => absurd he (by simp), fun hc => absurd hc h⟩
  · intro hfin
    rw [cdfList_final_eq_sum] at hfin
    simp only [GetCDF]
    rw [if_neg]
    intro hgt
    by_cases hne : cdfList pdf = []
    · rw [hne] at hgt
      norm_num [GetMaximum] at hgt
    · have hle := cdfList_mem_le_sum pdf (rowMajor_nonneg pdf hnn)
        (GetMaximum (cdfList pdf)) (GetMaximum_mem (cdfList pdf) hne)
      linarith

/-- C6 witness: the raise-condition theorem at the concrete normalized
1×1 PDF `pdfOneEx`. -/
theorem getCDF_raise_condition_witness :
    (GetCDF pdfOneEx = .error cdfOverflowMsg ↔ 1 < GetMaximum (cdfList pdfOneEx)) ∧
    ((cdfList pdfOneEx).getD ((cdfList pdfOneEx).length - 1) 0 ≤ 1 →
      GetCDF pdfOneEx = .ok (cdfList pdfOneEx)) :=
  getCDF_raise_condition pdfOneEx
    (by
      intro i j h1 h2 h3 h4
      have hbx : pdfOneEx.GetNbinsX = 1 := rfl
      have hby : pdfOneEx.GetNbinsY = 1 := rfl
      rw [hbx] at h2
      rw [hby] at h4
      have hi : i = 1 := by omega
      have hj : j = 1 := by omega
      subst hi; subst hj
      norm_num [pdfOneEx])

/-- A 1×1 PDF whose single bin is `1 + 1e-7`: within the claimed `1e-6`
tolerance but above 1.0. -/
def pdfOverEx : Hist2D :=
  ⟨⟨0, 1, 1⟩, ⟨0, 1, 1⟩, fun i j => if i = 1 ∧ j = 1 then 1 + 1 / 10000000 else 0⟩

/-- C6 counterexample: for `pdfOverEx` the final cumulative value
`1 + 1e-7` lies in `[0, 1 + 1e-6]`, so by the claim `GetCDF` should not
raise — but the source compares against 1.0 exactly and raises. -/
theorem getCDF_tolerance_counterexample :
    0 ≤ (cdfList pdfOverEx).getD ((cdfList pdfOverEx).length - 1) 0 ∧
    (cdfList pdfOverEx).getD ((cdfList pdfOverEx).length - 1) 0 ≤ 1 + 1 / 1000000 ∧
    GetCDF pdfOverEx = .error cdfOverflowMsg := by
  have hcdf : cdfList pdfOverEx = [0 + (1 + 1 / 10000000)] := rfl
  refine ⟨?_, ?_, ?_⟩
  · rw [hcdf]; norm_num
  · rw [hcdf]; norm_num
  · rw [GetCDF]
    rw [if_pos]
    rw [hcdf]
    show (1 : ℚ) < [].foldl max (0 + (1 + 1 / 10000000))
    norm_num

/-- Behaviour of the `_FindPDFintersection` linear scan when some element
strictly exceeds the target: it returns the first (smallest-index)
such bin. -/
theorem findLoop_spec (rand : ℚ) :
    ∀ (l : List ℚ) (s : ℕ), (∃ x ∈ l, rand < x) →
      ∃ k, findLoop rand l s = some k ∧ s ≤ k ∧ k < s + l.length ∧
        rand < l.getD (k - s) 0 ∧ ∀ t, t < k - s → l.getD t 0 ≤ rand := by
  intro l
  induction l with
  | nil => intro s hex; simp at hex
  | cons x xs ih =>
    intro s hex
    by_cases hx : rand < x
    · refine ⟨s, by simp [findLoop, hx], le_refl s, by simp, ?_, ?_⟩
      · have h0 : s - s = 0 := by omega
        rw [h0, List.getD_cons_zero]
        exact hx
      · intro t ht
        omega
    · obtain ⟨y, hy, hry⟩ := hex
      have hyxs : y ∈ xs := by
        rcases List.mem_cons.mp hy with rfl | h
        · exact absurd hry hx
        · exact h
      obtain ⟨k, hfind, hsk, hklen, hget, hmin⟩ := ih (s + 1) ⟨y, hyxs, hry⟩
      refine ⟨k, by simp [findLoop, hx, hfind], by omega, by simp; omega, ?_, ?_⟩
      · have h1 : k - s = (k - (s + 1)) + 1 := by omega
        rw [h1, List.getD_cons_succ]
        exact hget
      · intro t ht
        match t with
        | 0 =>
          rw [List.getD_cons_zero]
          exact not_lt.mp hx
        | t + 1 =>
          rw [List.getD_cons_succ]
          exact hmin t (by omega)

/-! ## C5: the CDF intersection search -/

/-- C5 (amended): for every drawn value `u` with `0 ≤ u` strictly below
the CDF maximum, `_FindPDFintersection` returns the smallest 1-based bin
index `k` with `cdf[k] > u` and its failure branch is unreachable.  The
claim's precondition `u ≤ cdf.max()` is too weak: at `u = cdf.max()`
(a value `random.uniform(0, cdf.max())` is documented to be able to
return) no bin satisfies `cdf[k] > u` and the search raises — see the
counterexample. -/
theorem findPDFintersection_smallest (u : ℚ) (cdf : List ℚ)
    (hne : cdf ≠ []) (h0 : 0 ≤ u) (hu : u < GetMaximum cdf) :
    ∃ k, FindPDFintersection u cdf = .ok k ∧ 1 ≤ k ∧ k ≤ cdf.length ∧
      u < cdf.getD (k - 1) 0 ∧
      ∀ k', 1 ≤ k' → k' < k → cdf.getD (k' - 1) 0 ≤ u := by
  have hex : ∃ x ∈ cdf, u < x := ⟨GetMaximum cdf, GetMaximum_mem cdf hne, hu⟩
  obtain ⟨k, hfind, hsk, hklen, hget, hmin⟩ := findLoop_spec u cdf 1 hex
  refine ⟨k, ?_, hsk, by omega, hget, ?_⟩
  · rw [FindPDFintersection, hfind]
  · intro k' h1 h2
    exact hmin (k' - 1) (by omega)

/-- C5 witness: the search theorem at the concrete CDF `[1/2, 1]` and
draw `u = 3/4` (which selects bin 2). -/
theorem findPDFintersection_smallest_witness :
    ∃ k, FindPDFintersection (3 / 4) [(1 : ℚ) / 2, 1] = .ok k ∧ 1 ≤ k ∧
      k ≤ [(1 : ℚ) / 2, 1].length ∧
      (3 / 4 : ℚ) < [(1 : ℚ) / 2, 1].getD (k - 1) 0 ∧
      ∀ k', 1 ≤ k' → k' < k → [(1 : ℚ) / 2, 1].getD (k' - 1) 0 ≤ 3 / 4 :=
  findPDFintersection_smallest (3 / 4) [(1 : ℚ) / 2, 1] (by simp) (by norm_num)
    (by
      show (3 : ℚ) / 4 < [(1 : ℚ)].foldl max (1 / 2)
      show (3 : ℚ) / 4 < max (1 / 2) 1
      rw [max_eq_right (by norm_num : (1 : ℚ) / 2 ≤ 1)]
      norm_num)

/-- C5 counterexample: the draw `u = 1` satisfies the claim's
precondition `0 ≤ u ≤ cdf.max()` for the CDF `[1]`, yet the search
raises its `NoIntersection` failure — the failure branch is reachable at
`u = cdf.max()`. -/
theorem findPDFintersection_at_max_counterexample :
    0 ≤ (1 : ℚ) ∧ (1 : ℚ) ≤ GetMaximum [(1 : ℚ)] ∧
    FindPDFintersection 1 [(1 : ℚ)] = .error noIntersectionMsg := by
  refine ⟨by norm_num, le_of_eq rfl, ?_⟩
  rw [FindPDFintersection, show findLoop 1 [(1 : ℚ)] 1 = none from ?_]
  rw [findLoop, if_neg (by norm_num)]
  rfl

/-- Updating one bin inside the integration rectangle shifts the integral
by the difference between the new and the old content. -/
theorem Integral_SetBinContent (t : Hist2D) (i j x1 x2 y1 y2 : ℕ) (v : ℚ)
    (hi : i ∈ Finset.Icc x1 x2) (hj : j ∈ Finset.Icc y1 y2) :
    Integral (t.SetBinContent i j v) x1 x2 y1 y2
      = Integral t x1 x2 y1 y2 + (v - t.content i j) := by
  rw [Integral, Integral]
  rw [← Finset.sum_erase_add _ _ hi, ← Finset.sum_erase_add _ _ hi]
  have houter : ∀ a ∈ (Finset.Icc x1 x2).erase i,
      (∑ b ∈ Finset.Icc y1 y2, (t.SetBinContent i j v).content a b)
        = ∑ b ∈ Finset.Icc y1 y2, t.content a b := by
    intro a ha
    refine Finset.sum_congr rfl fun b _ => ?_
    rw [SetBinContent_content, if_neg]
    rintro ⟨hai, _⟩
    exact (Finset.mem_erase.mp ha).1 hai
  rw [Finset.sum_congr rfl houter]
  have hinner : (∑ b ∈ Finset.Icc y1 y2, (t.SetBinContent i j v).content i b)
      = (∑ b ∈ Finset.Icc y1 y2, t.content i b) + (v - t.content i j) := by
    rw [← Finset.sum_erase_add _ _ hj, ← Finset.sum_erase_add _ _ hj]
    have h1 : ∀ b ∈ (Finset.Icc y1 y2).erase j,
        (t.SetBinContent i j v).content i b = t.content i b := by
      intro b hb
      rw [SetBinContent_content, if_neg]
      rintro ⟨_, hbj⟩
      exact (Finset.mem_erase.mp hb).1 hbj
    rw [Finset.sum_congr rfl h1, SetBinContent_content, if_pos ⟨rfl, rfl⟩]
    ring
  rw [hinner]
  ring

/-- A global bin `k` in `1..NX*NY` converts to an in-range 2D bin. -/
theorem GlobalBinTo2D_bounds (nx ny k : ℕ) (h1 : 1 ≤ k) (h2 : k ≤ nx * ny) :
    1 ≤ (GlobalBinTo2D ny k).1 ∧ (GlobalBinTo2D ny k).1 ≤ nx ∧
    1 ≤ (GlobalBinTo2D ny k).2 ∧ (GlobalBinTo2D ny k).2 ≤ ny := by
  have hpos : 0 < nx * ny := by omega
  have hny : 0 < ny := by
    rcases Nat.eq_zero_or_pos ny with h | h
    · rw [h, Nat.mul_zero] at hpos; exact absurd hpos (lt_irrefl 0)
    · exact h
  have hnx : 0 < nx := by
    rcases Nat.eq_zero_or_pos nx with h | h
    · rw [h, Nat.zero_mul] at hpos; exact absurd hpos (lt_irrefl 0)
    · exact h
  have hdiv : (k - 1) / ny < nx := by
    rw [Nat.div_lt_iff_lt_mul hny]
    calc k - 1 < k := by omega
      _ ≤ nx * ny := h2
  have hmod : (k - 1) % ny < ny := Nat.mod_lt _ hny
  rw [GlobalBinTo2D]
  exact ⟨Nat.le_add_left 1 _, Nat.succ_le_of_lt hdiv,
    Nat.le_add_left 1 _, Nat.succ_le_of_lt hmod⟩

/-- The event loop of `GeneratePseudoData`: provided every draw lies
strictly below some CDF value and the CDF has at most `NX*NY` bins, the
loop succeeds, preserves the axes, raises the in-range integral by the
number of draws, and adds a natural number to every bin content. -/
theorem generate_fold (pdf : Hist2D) (cdf : List ℚ)
    (hlen : cdf.length ≤ pdf.GetNbinsX * pdf.GetNbinsY) :
    ∀ (draws : List ℚ) (toy : Hist2D),
      (∀ u ∈ draws, ∃ x ∈ cdf, u < x) →
      ∃ toy', List.foldlM (generateStep pdf cdf) toy draws = .ok toy' ∧
        toy'.xaxis = toy.xaxis ∧ toy'.yaxis = toy.yaxis ∧
        Integral toy' 1 pdf.GetNbinsX 1 pdf.GetNbinsY
          = Integral toy 1 pdf.GetNbinsX 1 pdf.GetNbinsY + draws.length ∧
        (∀ i j, ∃ n : ℕ, toy'.content i j = toy.content i j + n) := by
  intro draws
  induction draws with
  | nil =>
    intro toy _
    exact ⟨toy, rfl, rfl, rfl, by simp, fun i j => ⟨0, by simp⟩⟩
  | cons u us ih =>
    intro toy hdr
    have hex : ∃ x ∈ cdf, u < x := hdr u (List.mem_cons_self u us)
    obtain ⟨k, hfind, hsk, hklen, _, _⟩ := findLoop_spec u cdf 1 hex
    have hFPI : FindPDFintersection u cdf = .ok k := by
      rw [FindPDFintersection, hfind]
    have hb := GlobalBinTo2D_bounds pdf.GetNbinsX pdf.GetNbinsY k hsk (by omega)
    obtain ⟨toy', hfold, hax, hay, hint, hcont⟩ :=
      ih (toy.SetBinContent (GlobalBinTo2D pdf.GetNbinsY k).1
          (GlobalBinTo2D pdf.GetNbinsY k).2
          (toy.GetBinContent (GlobalBinTo2D pdf.GetNbinsY k).1
            (GlobalBinTo2D pdf.GetNbinsY k).2 + 1))
        (fun x hx => hdr x (List.mem_cons_of_mem u hx))
    have hstep : generateStep pdf cdf toy u
        = .ok (toy.SetBinContent (GlobalBinTo2D pdf.GetNbinsY k).1
            (GlobalBinTo2D pdf.GetNbinsY k).2
            (toy.GetBinContent (GlobalBinTo2D pdf.GetNbinsY k).1
              (GlobalBinTo2D pdf.GetNbinsY k).2 + 1)) := by
      rw [generateStep, hFPI]
    refine ⟨toy', ?_, by rw [hax]; rfl, by rw [hay]; rfl, ?_, ?_⟩
    · rw [List.foldlM_cons, hstep]
      exact hfold
    · rw [hint, Integral_SetBinContent _ _ _ _ _ _ _ _
        (Finset.mem_Icc.mpr ⟨hb.1, hb.2.1⟩) (Finset.mem_Icc.mpr ⟨hb.2.2.1, hb.2.2.2⟩)]
      rw [Hist2D.GetBinContent]
      push_cast [List.length_cons]
      ring
    · intro i j
      obtain ⟨n, hn⟩ := hcont i j
      by_cases hij : i = (GlobalBinTo2D pdf.GetNbinsY k).1 ∧
          j = (GlobalBinTo2D pdf.GetNbinsY k).2
      · refine ⟨n + 1, ?_⟩
        rw [hn, SetBinContent_content, if_pos hij, Hist2D.GetBinContent,
          hij.1, hij.2]
        push_cast
        ring
      · refine ⟨n, ?_⟩
        rw [hn, SetBinContent_content, if_neg hij]

/-! ## C1: sampling conservation -/

/-- C1 (amended): for a well-formed PDF/CDF pair (CDF of length `NX*NY`,
the all-zero cloned template sharing the PDF's binning) and every draw
sequence whose values each lie strictly below some CDF value (in
particular strictly below `cdf.max()`), `GeneratePseudoData` returns a
toy grid whose bin contents are non-negative integers and whose in-range
integral equals exactly the number `N` of draws; for `N = 0` the result
is the all-zero grid.  The strictness is forced by the source:
`random.uniform(0, cdf.max())` may return the endpoint `cdf.max()`
itself, for which the sampling loop raises instead of returning (see the
counterexample). -/
theorem generatePseudoData_conservation (pdf template : Hist2D)
    (cdf draws : List ℚ)
    (hax : template.xaxis = pdf.xaxis) (hay : template.yaxis = pdf.yaxis)
    (hzero : ∀ i j, template.content i j = 0)
    (hcdf : cdf.length = pdf.GetNbinsX * pdf.GetNbinsY)
    (hdr : ∀ u ∈ draws, ∃ x ∈ cdf, u < x) :
    ∃ toy, GeneratePseudoData pdf cdf draws template = .ok toy ∧
      Integral toy 1 pdf.GetNbinsX 1 pdf.GetNbinsY = draws.length ∧
      (∀ i j, ∃ n : ℕ, toy.content i j = n) ∧
      (draws = [] → ∀ i j, toy.content i j = 0) := by
  obtain ⟨toy, hfold, _, _, hint, hcont⟩ :=
    generate_fold pdf cdf (le_of_eq hcdf) draws template hdr
  refine ⟨toy, hfold, ?_, ?_, ?_⟩
  · rw [hint]
    have hz : Integral template 1 pdf.GetNbinsX 1 pdf.GetNbinsY = 0 := by
      rw [Integral]
      exact Finset.sum_eq_zero fun i _ => Finset.sum_eq_zero fun j _ => hzero i j
    rw [hz, zero_add]
  · intro i j
    obtain ⟨n, hn⟩ := hcont i j
    exact ⟨n, by rw [hn, hzero, zero_add]⟩
  · intro hnil i j
    subst hnil
    have heq : (Except.ok template : Except String Hist2D) = .ok toy := by
      rw [← hfold]
      rfl
    rw [← Except.ok.inj heq]
    exact hzero i j

/-- C1 witness: two draws from the 1×1 PDF `pdfOneEx` with CDF `[1]` and
the zero template give a toy of total content exactly 2. -/
theorem generatePseudoData_conservation_witness :
    ∃ toy, GeneratePseudoData pdfOneEx [(1 : ℚ)] [(1 : ℚ) / 2, 1 / 4] pdfZeroEx = .ok toy ∧
      Integral toy 1 pdfOneEx.GetNbinsX 1 pdfOneEx.GetNbinsY
        = ([(1 : ℚ) / 2, 1 / 4].length : ℚ) ∧
      (∀ i j, ∃ n : ℕ, toy.content i j = n) ∧
      ([(1 : ℚ) / 2, 1 / 4] = ([] : List ℚ) → ∀ i j, toy.content i j = 0) :=
  generatePseudoData_conservation pdfOneEx pdfZeroEx [(1 : ℚ)] [(1 : ℚ) / 2, 1 / 4]
    rfl rfl (fun i j => rfl) rfl
    (by
      intro u hu
      rcases List.mem_cons.mp hu with rfl | hu
      · exact ⟨1, by simp, by norm_num⟩
      · rcases List.mem_cons.mp hu with rfl | hu
        · exact ⟨1, by simp, by norm_num⟩
        · simp at hu)

/-- C1 counterexample: a draw at exactly `cdf.max()` — a value the
source's `random.uniform(0, CDF.GetMaximum())` is allowed to return —
makes `GeneratePseudoData` raise instead of returning a toy grid of
total content `N = 1`. -/
theorem generatePseudoData_draw_at_max_counterexample :
    (1 : ℚ) ≤ GetMaximum [(1 : ℚ)] ∧
    GeneratePseudoData pdfOneEx [(1 : ℚ)] [(1 : ℚ)] pdfZeroEx
      = .error noIntersectionMsg := by
  refine ⟨le_of_eq rfl, ?_⟩
  have hFPI : FindPDFintersection 1 [(1 : ℚ)] = .error noIntersectionMsg := by
    rw [FindPDFintersection, show findLoop 1 [(1 : ℚ)] 1 = none from ?_]
    rw [findLoop, if_neg (by norm_num)]
    rfl
  have hstep : generateStep pdfOneEx [(1 : ℚ)] pdfZeroEx 1
      = .error noIntersectionMsg := by
    rw [generateStep, hFPI]
  rw [GeneratePseudoData, List.foldlM_cons, hstep]
  rfl

/-! ## C8: flatten/unflatten round trip -/

/-- C8: for all bin-index pairs (i,j) with `1 ≤ i ≤ NX` and `1 ≤ j ≤ NY`,
converting the flattened global bin `k = (i-1)*NY + (j-1) + 1` back
through `_GlobalBinTo2D` returns exactly `(i, j)`. -/
theorem globalBinTo2D_roundtrip (NX NY i j : ℕ)
    (hi1 : 1 ≤ i) (hi2 : i ≤ NX) (hj1 : 1 ≤ j) (hj2 : j ≤ NY) :
    GlobalBinTo2D NY ((i - 1) * NY + (j - 1) + 1) = (i, j) := by
  unfold GlobalBinTo2D
  have hny : 0 < NY := by omega
  have h1 : (i - 1) * NY + (j - 1) + 1 - 1 = NY * (i - 1) + (j - 1) := by
    rw [Nat.mul_comm]; omega
  rw [h1, Nat.mul_add_div hny, Nat.mul_add_mod]
  rw [Nat.div_eq_of_lt (by omega), Nat.mod_eq_of_lt (by omega)]
  simp only [Prod.mk.injEq]
  omega

/-- C8 witness: the round trip at the concrete pair (i,j) = (2,3) on a
3×4 grid. -/
theorem globalBinTo2D_roundtrip_witness :
    GlobalBinTo2D 4 ((2 - 1) * 4 + (3 - 1) + 1) = (2, 3) :=
  globalBinTo2D_roundtrip 3 4 2 3 (by decide) (by decide) (by decide) (by decide)

/-! ## C7: chain-length invariant -/

/-- C7 (amended): when a non-empty findreplace map is supplied, every
combination of region list and transfer-function list with
`len(regions) - len(rpfs) ≠ 1` makes `PseudoData.__init__` fail with the
chain-length-mismatch `RuntimeError`, and the check involves no histogram
contents (only the lengths of the two lists).  With an empty findreplace
map the constructor instead fails earlier with an `AttributeError`
(see the C7 counterexample and C9). -/
theorem initValidate_chain_mismatch (ledger : List Row) (regions : List String)
    (rpfs : List Hist2D) (findreplace : List (String × String))
    (hfr : findreplace ≠ [])
    (hlen : (regions.length : ℤ) - (rpfs.length : ℤ) ≠ 1) :
    initValidate ledger regions rpfs findreplace = .error chainLengthMsg := by
  match findreplace with
  | [] => exact absurd rfl hfr
  | p :: ps => simp only [initValidate, if_pos hlen]

/-- C7 witness: three regions, zero transfer functions and a non-empty
findreplace map fail with the chain-length error. -/
theorem initValidate_chain_mismatch_witness :
    initValidate [] ["Fail", "Loose", "Pass"] [] [("CR", "SR")] = .error chainLengthMsg :=
  initValidate_chain_mismatch [] ["Fail", "Loose", "Pass"] [] [("CR", "SR")]
    (by simp) (by decide)

/-- C7 counterexample: with no findreplace map, a mismatched combination
(zero regions, zero transfers, so `len(regions) - len(rpfs) = 0 ≠ 1`)
does not fail with the chain-length-mismatch error as the claim states:
line 43 reads the unassigned attribute `self.df` first, so construction
fails with an `AttributeError` instead. -/
theorem initValidate_mismatch_without_findreplace :
    initValidate [] [] [] [] = .error attributeErrorMsg ∧
      attributeErrorMsg ≠ chainLengthMsg :=
  ⟨rfl, by decide⟩

/-! ## C9: RegionNotFound check is never reached -/

/-- A ledger row whose histogram name does contain the requested region
name "SR". -/
def rowSR : Row :=
  { region := "SR", process := "data_obs", process_type := "DATA",
    variation := "nominal", source_filename := "file.root",
    source_histname := "hist_SR_nominal" }

/-- A ledger row whose histogram name does not contain "SR". -/
def rowCR : Row :=
  { region := "SR", process := "data_obs", process_type := "DATA",
    variation := "nominal", source_filename := "file.root",
    source_histname := "hist_CR_nominal" }

/-- C9 (code bug): with no findreplace map supplied, `PseudoData.__init__`
raises `AttributeError` unconditionally, because line 43 evaluates
`len(self.df)` before `self.df` has ever been assigned (the ledger
dataframe lives in `self.ledger.df`; `self.df` is only assigned later, at
lines 36 and 47).  This happens both when every row's histogram name
contains a requested region name (first conjunct — the claim says
construction proceeds) and when one does not (second conjunct — the
claim says it fails with the `RegionNotFound` message instead). -/
theorem initValidate_no_findreplace_attribute_bug :
    initValidate [rowSR] ["SR"] [] [] = .error attributeErrorMsg ∧
      initValidate [rowCR] ["SR"] [] [] = .error attributeErrorMsg :=
  ⟨rfl, rfl⟩

end MakePseudo
